import Mathlib

/-!
Shallow embedding of src/usaid_pdf2sheet.py.

The script opens a fixed PDF, extracts at most one table per page with
pdfplumber, concatenates the rows of all truthy (non-None, non-empty)
tables in page order, builds a pandas DataFrame whose columns are the
first aggregated row and whose data are the remaining rows, and writes
the DataFrame to a CSV file and a spreadsheet file, both without a row
index.

The PDF and the two libraries are external to the repository, so the
document is modelled as the list of per-page extraction results, and the
library calls (pandas DataFrame construction, to_csv, to_excel, and the
CSV loader used for the round-trip property) are modelled from their
contracts as stated in the spec: DataFrame construction fails when the
aggregate is empty or when a data row's length differs from the header
length; to_csv emits one header line plus one line per record, fields
separated by commas, minimally quoted, lines terminated by a newline, no
index column.
-/

namespace USAID

/-- A raw row: an ordered sequence of cell values (src line 7: one row of
`page.extract_table()`). -/
abbrev Row := List String

/-- A document, as the script observes it: for each page in order, the
result of `page.extract_table()` (src line 7) - `none` models Python
`None` (no table detected), `some t` a detected table with rows `t`. -/
abbrev Doc := List (Option (List Row))

/-- Src lines 5-9: `all_rows = []` then for each page,
`table = page.extract_table(); if table: all_rows.extend(table)`.
Python truthiness: `if table:` skips both `None` and the empty list. -/
def all_rows (pdf : Doc) : List Row :=
  pdf.foldl (fun acc t =>
    match t with
    | none => acc
    | some table => if table = [] then acc else acc ++ table) []

/-- Spec-side aggregate (section 4.2): concatenation, in page order, of
the rows of each page's detected table, skipping pages with no detected
table. Written from the spec's words, to be compared with `all_rows`. -/
def specAggregate (pdf : Doc) : List Row :=
  (pdf.filterMap id).flatten

/-- The structured table (the script's `df`, src line 12): named columns
plus data rows. -/
structure DataFrame where
  columns : Row
  data : List Row
deriving DecidableEq

/-- Src line 12: `pd.DataFrame(all_rows[1:], columns=all_rows[0])`.
Modelled from the spec's structuring contract (section 4.3): element 0 of
the aggregate is the field-name sequence, one record per remaining
element; an empty aggregate fails (`all_rows[0]` raises IndexError), and
any data row whose length differs from the header length makes
construction fail fatally (ValueError). -/
def mkDataFrame : List Row → Except String DataFrame
  | [] => Except.error "IndexError: list index out of range"
  | header :: rest =>
      if rest.all (fun r => r.length = header.length) then
        Except.ok ⟨header, rest⟩
      else
        Except.error "ValueError: columns passed, passed data had different columns"

/-- The record view of a DataFrame: each data row zipped positionally
with the field names (spec 4.3: "zipping values to field names by
position"). -/
def records (df : DataFrame) : List (List (String × String)) :=
  df.data.map (fun r => df.columns.zip r)

/-! ### CSV serialization (src line 13: `df.to_csv(..., index=False)`)

Modelled from pandas' documented CSV format: fields joined by commas,
minimal quoting (a field is wrapped in double quotes exactly when it
contains a comma, a double quote, or a line break, with inner quotes
doubled), each record terminated by a newline, header first, no index
column. -/

/-- Whether a cell must be quoted under minimal quoting. -/
def needsQuote (s : List Char) : Bool :=
  s.any (fun c => decide (c = ',' ∨ c = '"' ∨ c = '\n' ∨ c = '\r'))

/-- Double every inner double-quote character. -/
def escapeChars : List Char → List Char
  | [] => []
  | c :: cs => if c = '"' then '"' :: '"' :: escapeChars cs else c :: escapeChars cs

/-- Encode one cell: quote it if needed, otherwise emit it verbatim. -/
def encodeCell (s : List Char) : List Char :=
  if needsQuote s then '"' :: (escapeChars s ++ ['"']) else s

/-- A row's cells as character lists. -/
def rowChars (r : Row) : List (List Char) := r.map String.data

/-- Join segments with a single separator character between them. -/
def joinSep (sep : Char) : List (List Char) → List Char
  | [] => []
  | [x] => x
  | x :: y :: rest => x ++ sep :: joinSep sep (y :: rest)

/-- Encode one record: encoded cells joined by commas, newline-terminated. -/
def encodeRecord (r : List (List Char)) : List Char :=
  joinSep ',' (r.map encodeCell) ++ ['\n']

/-- Encode a whole table: the concatenation of its encoded records. -/
def encodeCsv (rows : List (List (List Char))) : List Char :=
  (rows.map encodeRecord).flatten

/-- Src line 13: `df.to_csv("usaid_defunded.csv", index=False)` - the
text written to the CSV file: header row first, then one line per
record, no index column. -/
def to_csv (df : DataFrame) : String :=
  String.mk (encodeCsv ((df.columns :: df.data).map rowChars))

/-- Src line 14: `df.to_excel("usaid_defunded.xlsx", index=False)` - the
sheet contents, modelled as its rows: header row then data rows, no
index column. -/
def to_excel (df : DataFrame) : List Row :=
  df.columns :: df.data

/-- The files a successful run writes. -/
structure Output where
  csv : String
  xlsx : List Row
deriving DecidableEq

/-- Src lines 4-14 end to end: aggregate the pages, build the DataFrame,
and on success write both outputs. A structuring failure aborts the run
before any output is produced. -/
def run (pdf : Doc) : Except String Output :=
  match mkDataFrame (all_rows pdf) with
  | Except.error e => Except.error e
  | Except.ok df => Except.ok ⟨to_csv df, to_excel df⟩

/-! ### CSV loading (model of the reader used by the round-trip property)

A standard quote-aware CSV reader: split the text into records at
newlines that occur outside quotes, split each record into fields at
commas that occur outside quotes, then strip the quoting from each
field. The trailing empty segment after the final newline is not a
record. -/

/-- Split a character stream at every occurrence of `sep` that lies
outside double quotes; `inQ` tracks quote parity, `acc` the current
segment reversed. -/
def splitSepAux (sep : Char) : List Char → Bool → List Char → List (List Char)
  | [], _, acc => [acc.reverse]
  | c :: cs, inQ, acc =>
      if c = '"' then splitSepAux sep cs (!inQ) (c :: acc)
      else if c = sep ∧ inQ = false then acc.reverse :: splitSepAux sep cs false []
      else splitSepAux sep cs inQ (c :: acc)

/-- Quote-aware split, starting outside quotes. -/
def splitSep (sep : Char) (cs : List Char) : List (List Char) :=
  splitSepAux sep cs false []

/-- Collapse doubled double-quotes back to single ones. -/
def unescapeChars : List Char → List Char
  | [] => []
  | [c] => [c]
  | c :: d :: cs =>
      if c = '"' ∧ d = '"' then '"' :: unescapeChars cs
      else c :: unescapeChars (d :: cs)

/-- Decode one field: if it is quoted, drop the surrounding quotes and
undouble the inner ones; otherwise take it verbatim. -/
def decodeCell (cs : List Char) : List Char :=
  match cs with
  | [] => []
  | c :: rest => if c = '"' then unescapeChars rest.dropLast else c :: rest

/-- The logical lines of a CSV text: newline-separated segments, outside
quotes, without the trailing empty segment after the final newline. -/
def csvLines (s : String) : List (List Char) :=
  (splitSep '\n' s.data).dropLast

/-- Parse one record: comma-split outside quotes, then decode each field. -/
def parseRecordChars (rec : List Char) : List (List Char) :=
  (splitSep ',' rec).map decodeCell

/-- Load a CSV text back into a sequence of rows of text cells. -/
def read_csv (s : String) : List Row :=
  (csvLines s).map (fun rec => (parseRecordChars rec).map String.mk)

/-! ### Aggregation lemmas -/

/-- The loop of src lines 5-9, started from any accumulator, appends the
flattened detected tables to it. -/
theorem foldl_extend_eq (pdf : Doc) :
    ∀ acc : List Row,
      pdf.foldl (fun acc t =>
        match t with
        | none => acc
        | some table => if table = [] then acc else acc ++ table) acc
      = acc ++ (pdf.filterMap id).flatten := by
  induction pdf with
  | nil => intro acc; simp
  | cons t rest ih =>
    intro acc
    cases t with
    | none => simpa using ih acc
    | some table =>
      by_cases htab : table = []
      · subst htab; simpa using ih acc
      · simp [htab, ih, List.append_assoc]

theorem all_rows_eq_specAggregate (pdf : Doc) : all_rows pdf = specAggregate pdf := by
  simpa [all_rows, specAggregate] using foldl_extend_eq pdf []

/-- Claim C1: the aggregated row set equals the concatenation, in page
order, of the rows of each page's detected table; pages with no detected
table are skipped and row order is preserved (no deduplication, no
reordering, no rows dropped or added). -/
theorem aggregate_is_page_order_concat (pdf : Doc) :
    all_rows pdf = specAggregate pdf :=
  all_rows_eq_specAggregate pdf

/-- Claim C10: a page whose extraction returns an empty row sequence is
treated exactly like a page with no detected table - it leaves the
aggregate unchanged. -/
theorem empty_table_page_like_no_table (pre post : Doc) :
    all_rows (pre ++ some [] :: post) = all_rows (pre ++ post) ∧
    all_rows (pre ++ some [] :: post) = all_rows (pre ++ none :: post) := by
  constructor <;>
    simp [all_rows_eq_specAggregate, specAggregate, List.filterMap_append]

/-! ### Structuring claims -/

theorem mkDataFrame_nil :
    mkDataFrame [] = Except.error "IndexError: list index out of range" := rfl

theorem mkDataFrame_cons (h : Row) (rest : List Row) :
    mkDataFrame (h :: rest)
      = if rest.all (fun r => r.length = h.length) then
          Except.ok ⟨h, rest⟩
        else
          Except.error "ValueError: columns passed, passed data had different columns" := rfl

theorem run_eq (pdf : Doc) :
    run pdf = match mkDataFrame (all_rows pdf) with
      | Except.error e => Except.error e
      | Except.ok df => Except.ok ⟨to_csv df, to_excel df⟩ := rfl

/-- Claim C2: when structuring a non-empty aggregate succeeds, the field
names are exactly element 0 of the aggregate, in order, and there is one
record per remaining element, each record mapping values to field names
positionally. -/
theorem structuring_header_and_records (h : Row) (rest : List Row) (df : DataFrame)
    (hok : mkDataFrame (h :: rest) = Except.ok df) :
    df.columns = h ∧ df.data = rest ∧ df.data.length = rest.length ∧
      records df = rest.map (fun r => h.zip r) := by
  rw [mkDataFrame_cons] at hok
  split at hok
  · cases hok
    exact ⟨rfl, rfl, rfl, rfl⟩
  · cases hok

theorem structuring_header_and_records_witness :
    (⟨["a", "b"], [["1", "2"]]⟩ : DataFrame).columns = ["a", "b"] ∧
    (⟨["a", "b"], [["1", "2"]]⟩ : DataFrame).data = [["1", "2"]] ∧
    (⟨["a", "b"], [["1", "2"]]⟩ : DataFrame).data.length = [["1", "2"]].length ∧
      records ⟨["a", "b"], [["1", "2"]]⟩
        = [["1", "2"]].map (fun r => ["a", "b"].zip r) :=
  structuring_header_and_records ["a", "b"] [["1", "2"]] ⟨["a", "b"], [["1", "2"]]⟩ rfl

/-- Claim C3: an aggregate containing a data row whose length differs
from the header row's length makes the run fail at the structuring
stage, before any output is produced. -/
theorem ragged_row_fails_before_output (pdf : Doc) (h : Row) (rest : List Row) (r : Row)
    (hagg : all_rows pdf = h :: rest) (hmem : r ∈ rest) (hlen : r.length ≠ h.length) :
    ∃ e, run pdf = Except.error e := by
  refine ⟨"ValueError: columns passed, passed data had different columns", ?_⟩
  have hcond : ¬ ((rest.all fun r => r.length = h.length) = true) := by
    rw [List.all_eq_true]
    intro hall
    exact hlen (by simpa using hall r hmem)
  rw [run_eq, hagg, mkDataFrame_cons, if_neg hcond]

theorem ragged_row_fails_before_output_witness :
    ∃ e, run [some [["a"], ["1", "2"]]] = Except.error e :=
  ragged_row_fails_before_output [some [["a"], ["1", "2"]]] ["a"] [["1", "2"]]
    ["1", "2"] rfl (by simp) (by decide)

/-- Claim C4: an empty aggregate (no page yields a detected table) makes
the run fail at the structuring stage instead of producing an empty
output file. -/
theorem empty_aggregate_fails (pdf : Doc) (hagg : all_rows pdf = []) :
    ∃ e, run pdf = Except.error e := by
  refine ⟨"IndexError: list index out of range", ?_⟩
  rw [run_eq, hagg, mkDataFrame_nil]

theorem empty_aggregate_fails_witness :
    ∃ e, run [none, some []] = Except.error e :=
  empty_aggregate_fails [none, some []] rfl

/-- Claim C5: the concrete 2-page scenario - aggregate, structured
table, records, and exact CSV file content. -/
theorem two_page_scenario :
    all_rows [some [["Name", "Amount"], ["A", "10"]], some [["B", "20"]]]
      = [["Name", "Amount"], ["A", "10"], ["B", "20"]] ∧
    mkDataFrame [["Name", "Amount"], ["A", "10"], ["B", "20"]]
      = Except.ok ⟨["Name", "Amount"], [["A", "10"], ["B", "20"]]⟩ ∧
    records ⟨["Name", "Amount"], [["A", "10"], ["B", "20"]]⟩
      = [[("Name", "A"), ("Amount", "10")], [("Name", "B"), ("Amount", "20")]] ∧
    to_csv ⟨["Name", "Amount"], [["A", "10"], ["B", "20"]]⟩ = "Name,Amount\nA,10\nB,20\n" := by
  refine ⟨rfl, rfl, rfl, rfl⟩

/-- Claim C9 counterexample: an aggregate consisting of a single
header-candidate row does NOT make structuring fail - the run succeeds
and writes a header-only CSV file. -/
theorem header_only_run_succeeds_cex :
    run [some [["Name", "Amount"]]]
      = Except.ok ⟨"Name,Amount\n", [["Name", "Amount"]]⟩ := rfl

/-- Claim C9 (amended): an aggregate consisting of a single
header-candidate row makes structuring succeed with zero data records;
the run writes output files containing only the header row. -/
theorem header_only_run_succeeds (pdf : Doc) (h : Row) (hagg : all_rows pdf = [h]) :
    run pdf = Except.ok ⟨String.mk (encodeRecord (rowChars h)), [h]⟩ := by
  rw [run_eq, hagg, mkDataFrame_cons, if_pos (by simp)]
  simp [to_csv, to_excel, encodeCsv]

theorem header_only_run_succeeds_witness :
    run [some [["x"]]] = Except.ok ⟨String.mk (encodeRecord (rowChars ["x"])), [["x"]]⟩ :=
  header_only_run_succeeds [some [["x"]]] ["x"] rfl

/-! ### CSV encode/decode lemmas -/

theorem escapeChars_nil_iff (s : List Char) : escapeChars s = [] ↔ s = [] := by
  cases s with
  | nil => simp [escapeChars]
  | cons c cs =>
    simp only [escapeChars]
    split <;> simp

theorem unescape_escape (s : List Char) : unescapeChars (escapeChars s) = s := by
  induction s with
  | nil => rfl
  | cons c cs ih =>
    by_cases hc : c = '"'
    · subst hc
      simp [escapeChars, unescapeChars, ih]
    · cases hE : escapeChars cs with
      | nil =>
        have hcs : cs = [] := (escapeChars_nil_iff cs).mp hE
        subst hcs
        simp [escapeChars, hc, unescapeChars]
      | cons d ds =>
        rw [show escapeChars (c :: cs) = c :: escapeChars cs from by simp [escapeChars, hc]]
        rw [hE]
        rw [show unescapeChars (c :: d :: ds) = c :: unescapeChars (d :: ds) from by
          simp [unescapeChars, hc]]
        rw [← hE, ih]

theorem splitSepAux_nil (sep : Char) (inQ : Bool) (acc : List Char) :
    splitSepAux sep [] inQ acc = [acc.reverse] := rfl

theorem splitSepAux_cons (sep c : Char) (cs : List Char) (inQ : Bool) (acc : List Char) :
    splitSepAux sep (c :: cs) inQ acc
      = if c = '"' then splitSepAux sep cs (!inQ) (c :: acc)
        else if c = sep ∧ inQ = false then acc.reverse :: splitSepAux sep cs false []
        else splitSepAux sep cs inQ (c :: acc) := rfl

/-- Scanning an escaped cell body inside quotes consumes it whole and
stays inside quotes: doubled quotes toggle the parity twice. -/
theorem scan_escaped (sep : Char) (s : List Char) :
    ∀ rest acc : List Char,
      splitSepAux sep (escapeChars s ++ rest) true acc
        = splitSepAux sep rest true ((escapeChars s).reverse ++ acc) := by
  induction s with
  | nil => intro rest acc; simp [escapeChars]
  | cons c cs ih =>
    intro rest acc
    by_cases hc : c = '"'
    · subst hc
      rw [show escapeChars ('"' :: cs) = '"' :: '"' :: escapeChars cs from by
        simp [escapeChars]]
      rw [List.cons_append, List.cons_append]
      rw [splitSepAux_cons, if_pos rfl, Bool.not_true]
      rw [splitSepAux_cons, if_pos rfl, Bool.not_false]
      rw [ih]
      simp [List.append_assoc]
    · simp only [escapeChars, if_neg hc, List.cons_append]
      rw [splitSepAux_cons, if_neg hc, if_neg (by simp)]
      rw [ih]
      simp [List.append_assoc]

/-- Scanning a segment free of quotes and of the separator, outside
quotes, consumes it whole without splitting. -/
theorem scan_plain (sep : Char) (s : List Char) (hs : ∀ c ∈ s, ¬ c = '"' ∧ ¬ c = sep) :
    ∀ rest acc : List Char,
      splitSepAux sep (s ++ rest) false acc
        = splitSepAux sep rest false (s.reverse ++ acc) := by
  induction s with
  | nil => intro rest acc; simp
  | cons c cs ih =>
    intro rest acc
    obtain ⟨hq, hsep⟩ := hs c (by simp)
    rw [List.cons_append, splitSepAux_cons, if_neg hq, if_neg (by simp [hsep])]
    rw [ih (fun d hd => hs d (by simp [hd]))]
    simp [List.append_assoc]

/-- Scanning an encoded cell, outside quotes, consumes it whole without
splitting, for either separator the writer uses. -/
theorem scan_encodeCell (sep : Char) (hsep : sep = ',' ∨ sep = '\n') (s : List Char) :
    ∀ rest acc : List Char,
      splitSepAux sep (encodeCell s ++ rest) false acc
        = splitSepAux sep rest false ((encodeCell s).reverse ++ acc) := by
  intro rest acc
  by_cases hq : needsQuote s = true
  · simp only [encodeCell, if_pos hq]
    rw [show ('"' :: (escapeChars s ++ ['"'])) ++ rest
          = '"' :: (escapeChars s ++ ('"' :: rest)) from by simp]
    rw [splitSepAux_cons, if_pos rfl, Bool.not_false]
    rw [scan_escaped]
    rw [splitSepAux_cons, if_pos rfl, Bool.not_true]
    simp [List.append_assoc]
  · simp only [encodeCell, if_neg hq]
    apply scan_plain
    intro c hc
    have hnot : ¬ (c = ',' ∨ c = '"' ∨ c = '\n' ∨ c = '\r') := by
      intro hor
      exact hq (by
        simp only [needsQuote, List.any_eq_true]
        exact ⟨c, hc, by simpa using hor⟩)
    push_neg at hnot
    rcases hsep with h | h <;> subst h
    · exact ⟨hnot.2.1, hnot.1⟩
    · exact ⟨hnot.2.1, hnot.2.2.1⟩

/-- Scanning a whole encoded record body for newlines, outside quotes,
consumes it without splitting: the only newlines are the terminators. -/
theorem scan_recordBody (r : List (List Char)) :
    ∀ rest acc : List Char,
      splitSepAux '\n' (joinSep ',' (r.map encodeCell) ++ rest) false acc
        = splitSepAux '\n' rest false ((joinSep ',' (r.map encodeCell)).reverse ++ acc) := by
  induction r with
  | nil => intro rest acc; simp [joinSep]
  | cons x xs ih =>
    intro rest acc
    cases xs with
    | nil =>
      simp only [List.map_cons, List.map_nil, joinSep]
      exact scan_encodeCell '\n' (Or.inr rfl) x rest acc
    | cons y ys =>
      rw [show joinSep ',' ((x :: y :: ys).map encodeCell)
            = encodeCell x ++ ',' :: joinSep ',' ((y :: ys).map encodeCell) from rfl]
      rw [List.append_assoc, List.cons_append]
      rw [scan_encodeCell '\n' (Or.inr rfl) x]
      rw [splitSepAux_cons, if_neg (by decide), if_neg (by simp)]
      rw [ih]
      simp [List.append_assoc]

/-- Comma-splitting an encoded record body recovers the encoded cells. -/
theorem splitSep_comma_record (r : List (List Char)) (hne : r ≠ []) :
    splitSep ',' (joinSep ',' (r.map encodeCell)) = r.map encodeCell := by
  induction r with
  | nil => exact absurd rfl hne
  | cons x xs ih =>
    cases xs with
    | nil =>
      unfold splitSep
      rw [show joinSep ',' ([x].map encodeCell) = encodeCell x from rfl]
      rw [show encodeCell x = encodeCell x ++ [] from by simp]
      rw [scan_encodeCell ',' (Or.inl rfl) x]
      simp [splitSepAux_nil]
    | cons y ys =>
      unfold splitSep
      rw [show joinSep ',' ((x :: y :: ys).map encodeCell)
            = encodeCell x ++ ',' :: joinSep ',' ((y :: ys).map encodeCell) from rfl]
      rw [scan_encodeCell ',' (Or.inl rfl) x]
      rw [splitSepAux_cons, if_neg (by decide), if_pos ⟨rfl, rfl⟩]
      rw [show splitSepAux ',' (joinSep ',' ((y :: ys).map encodeCell)) false []
            = splitSep ',' (joinSep ',' ((y :: ys).map encodeCell)) from rfl]
      rw [ih (by simp)]
      simp

theorem dropLast_append_singleton {α : Type} (l : List α) (a : α) :
    (l ++ [a]).dropLast = l := by
  induction l with
  | nil => rfl
  | cons x xs ih =>
    rw [List.cons_append]
    cases hx : xs ++ [a] with
    | nil => exact absurd hx (by simp)
    | cons z zs => simp [List.dropLast, ← hx, ih]

/-- Decoding inverts encoding on every cell. -/
theorem decode_encode (s : List Char) : decodeCell (encodeCell s) = s := by
  by_cases hq : needsQuote s = true
  · simp only [encodeCell, if_pos hq]
    simp only [decodeCell, if_pos rfl]
    rw [dropLast_append_singleton]
    exact unescape_escape s
  · simp only [encodeCell, if_neg hq]
    cases s with
    | nil => rfl
    | cons c cs =>
      have hc : ¬ c = '"' := by
        intro h
        subst h
        exact hq (by simp [needsQuote])
      simp [decodeCell, hc]

theorem map_decode_encode (l : List (List Char)) :
    (l.map encodeCell).map decodeCell = l := by
  induction l with
  | nil => rfl
  | cons x xs ih => simp [decode_encode, ih]

/-- Parsing an encoded record body recovers the record. -/
theorem parseRecord_encode (r : List (List Char)) (hne : r ≠ []) :
    parseRecordChars (joinSep ',' (r.map encodeCell)) = r := by
  unfold parseRecordChars
  rw [splitSep_comma_record r hne, map_decode_encode]

/-- Newline-splitting an encoded CSV text yields the record bodies plus
the trailing empty segment. -/
theorem splitSep_newline_encodeCsv (rows : List (List (List Char))) :
    splitSep '\n' (encodeCsv rows)
      = rows.map (fun r => joinSep ',' (r.map encodeCell)) ++ [[]] := by
  induction rows with
  | nil => rfl
  | cons r rs ih =>
    unfold splitSep
    rw [show encodeCsv (r :: rs) = joinSep ',' (r.map encodeCell) ++ ('\n' :: encodeCsv rs) from by
      simp [encodeCsv, encodeRecord]]
    rw [scan_recordBody r]
    rw [splitSepAux_cons, if_neg (by decide), if_pos ⟨rfl, rfl⟩]
    rw [show splitSepAux '\n' (encodeCsv rs) false [] = splitSep '\n' (encodeCsv rs) from rfl]
    rw [ih]
    simp

/-- Char-level round trip: parsing the lines of an encoded CSV recovers
the rows, provided every row has at least one cell. -/
theorem parse_lines_encodeCsv (rows : List (List (List Char))) (hne : ∀ r ∈ rows, r ≠ []) :
    ((splitSep '\n' (encodeCsv rows)).dropLast).map parseRecordChars = rows := by
  rw [splitSep_newline_encodeCsv, dropLast_append_singleton]
  induction rows with
  | nil => rfl
  | cons r rs ih =>
    rw [List.map_cons, List.map_cons]
    rw [parseRecord_encode r (hne r (by simp))]
    rw [ih (fun t ht => hne t (by simp [ht]))]

/-! ### String-level lemmas and the output claims -/

theorem mkDataFrame_ok_shape (rows : List Row) (df : DataFrame)
    (hok : mkDataFrame rows = Except.ok df) :
    rows = df.columns :: df.data ∧ ∀ r ∈ df.data, r.length = df.columns.length := by
  cases rows with
  | nil => rw [mkDataFrame_nil] at hok; cases hok
  | cons h rest =>
    rw [mkDataFrame_cons] at hok
    split at hok
    · cases hok
      rename_i hall
      refine ⟨rfl, ?_⟩
      intro r hr
      simpa using List.all_eq_true.mp hall r hr
    · cases hok

theorem rows_nonempty (cols : Row) (data : List Row) (hcols : cols ≠ [])
    (hlen : ∀ r ∈ data, r.length = cols.length) :
    ∀ r ∈ cols :: data, r ≠ [] := by
  intro r hr
  rcases List.mem_cons.mp hr with h | h
  · subst h; exact hcols
  · intro hnil
    have h0 : cols.length = 0 := by
      rw [← hlen r h, hnil]
      rfl
    exact hcols (List.length_eq_zero.mp h0)

theorem mk_data (s : String) : String.mk s.data = s := rfl

theorem map_mk_rowChars (r : Row) : (rowChars r).map String.mk = r := by
  induction r with
  | nil => rfl
  | cons c cs ih => simp only [rowChars, List.map_cons] at *; rw [ih, mk_data]

theorem map_mk_parse (rows : List Row) :
    (rows.map rowChars).map (fun l => l.map String.mk) = rows := by
  induction rows with
  | nil => rfl
  | cons r rs ih => simp only [List.map_cons, ih, map_mk_rowChars]

/-- String-level round trip: loading an encoded CSV text recovers the
rows, provided every row has at least one cell. -/
theorem read_csv_encode (rows : List Row) (hne : ∀ r ∈ rows, r ≠ []) :
    read_csv (String.mk (encodeCsv (rows.map rowChars))) = rows := by
  have hSide : ∀ r ∈ rows.map rowChars, r ≠ [] := by
    intro r hr
    rw [List.mem_map] at hr
    obtain ⟨row, hrow, hback⟩ := hr
    subst hback
    intro hn
    exact hne row hrow (by simpa [rowChars] using hn)
  unfold read_csv
  rw [show csvLines (String.mk (encodeCsv (rows.map rowChars)))
        = (splitSep '\n' (encodeCsv (rows.map rowChars))).dropLast from rfl]
  rw [show (fun rec => (parseRecordChars rec).map String.mk)
        = (fun l => l.map String.mk) ∘ parseRecordChars from rfl]
  rw [← List.map_map, parse_lines_encodeCsv _ hSide, map_mk_parse]

theorem csvLines_to_csv (df : DataFrame) :
    csvLines (to_csv df)
      = ((df.columns :: df.data).map rowChars).map
          (fun r => joinSep ',' (r.map encodeCell)) := by
  unfold csvLines
  rw [show (to_csv df).data = encodeCsv ((df.columns :: df.data).map rowChars) from rfl]
  rw [splitSep_newline_encodeCsv, dropLast_append_singleton]

/-- Claim C7: for every structured table produced by a successful run,
loading the written CSV file and re-deriving a structured table yields
the same cell values, as text, as the in-memory table before writing. -/
theorem csv_round_trip (pdf : Doc) (df : DataFrame)
    (hok : mkDataFrame (all_rows pdf) = Except.ok df)
    (hcols : df.columns ≠ []) :
    run pdf = Except.ok ⟨to_csv df, to_excel df⟩ ∧
    read_csv (to_csv df) = df.columns :: df.data ∧
    mkDataFrame (read_csv (to_csv df)) = Except.ok df := by
  obtain ⟨cols, data⟩ := df
  obtain ⟨hshape, hlen⟩ := mkDataFrame_ok_shape _ _ hok
  have hne := rows_nonempty cols data hcols hlen
  have hread : read_csv (to_csv ⟨cols, data⟩) = cols :: data := by
    have := read_csv_encode (cols :: data) hne
    simpa [to_csv] using this
  refine ⟨?_, hread, ?_⟩
  · rw [run_eq, hok]
  · rw [hread, mkDataFrame_cons, if_pos ?_]
    rw [List.all_eq_true]
    intro r hr
    simpa using hlen r hr

theorem csv_round_trip_witness :
    run [some [["a"], ["1"]]]
        = Except.ok ⟨to_csv ⟨["a"], [["1"]]⟩, to_excel ⟨["a"], [["1"]]⟩⟩ ∧
    read_csv (to_csv ⟨["a"], [["1"]]⟩) = [["a"], ["1"]] ∧
    mkDataFrame (read_csv (to_csv ⟨["a"], [["1"]]⟩)) = Except.ok ⟨["a"], [["1"]]⟩ :=
  csv_round_trip [some [["a"], ["1"]]] ⟨["a"], [["1"]]⟩ rfl (by decide)

/-- Claim C6: on a successful run the first CSV line carries exactly the
first extracted row's values in order, there is one line per record plus
the header line, every line has exactly one field per column (no
row-index column), and the spreadsheet output likewise is the header row
followed by the records with no index column. -/
theorem csv_header_line_and_shape (pdf : Doc) (df : DataFrame)
    (hok : mkDataFrame (all_rows pdf) = Except.ok df)
    (hcols : df.columns ≠ []) :
    all_rows pdf = df.columns :: df.data ∧
    (csvLines (to_csv df)).length = 1 + df.data.length ∧
    (csvLines (to_csv df)).head?.map parseRecordChars = some (rowChars df.columns) ∧
    (∀ line ∈ csvLines (to_csv df), (parseRecordChars line).length = df.columns.length) ∧
    to_excel df = df.columns :: df.data := by
  obtain ⟨cols, data⟩ := df
  obtain ⟨hshape, hlen⟩ := mkDataFrame_ok_shape _ _ hok
  have hne := rows_nonempty cols data hcols hlen
  refine ⟨hshape, ?_, ?_, ?_, rfl⟩
  · rw [csvLines_to_csv]
    simp [Nat.add_comm]
  · rw [csvLines_to_csv]
    simp only [List.map_cons, List.head?_cons, Option.map_some']
    rw [parseRecord_encode]
    intro hn
    exact hne cols (by simp) (by simpa [rowChars] using hn)
  · intro line hline
    rw [csvLines_to_csv] at hline
    simp only [List.map_map, List.mem_map] at hline
    obtain ⟨r, hr, hline⟩ := hline
    have hrne : rowChars r ≠ [] := by
      intro hn
      exact hne r hr (by simpa [rowChars] using hn)
    subst hline
    rw [show ((fun r => joinSep ',' (r.map encodeCell)) ∘ rowChars) r
          = joinSep ',' ((rowChars r).map encodeCell) from rfl]
    rw [parseRecord_encode _ hrne]
    rw [show (rowChars r).length = r.length from by simp [rowChars]]
    rcases List.mem_cons.mp hr with h | h
    · rw [h]
    · exact hlen r h

theorem csv_header_line_and_shape_witness :
    all_rows [some [["a"], ["1"]]]
        = (⟨["a"], [["1"]]⟩ : DataFrame).columns :: (⟨["a"], [["1"]]⟩ : DataFrame).data ∧
    (csvLines (to_csv ⟨["a"], [["1"]]⟩)).length
        = 1 + (⟨["a"], [["1"]]⟩ : DataFrame).data.length ∧
    (csvLines (to_csv ⟨["a"], [["1"]]⟩)).head?.map parseRecordChars
        = some (rowChars (⟨["a"], [["1"]]⟩ : DataFrame).columns) ∧
    (∀ line ∈ csvLines (to_csv ⟨["a"], [["1"]]⟩),
        (parseRecordChars line).length = (⟨["a"], [["1"]]⟩ : DataFrame).columns.length) ∧
    to_excel ⟨["a"], [["1"]]⟩
        = (⟨["a"], [["1"]]⟩ : DataFrame).columns :: (⟨["a"], [["1"]]⟩ : DataFrame).data :=
  csv_header_line_and_shape [some [["a"], ["1"]]] ⟨["a"], [["1"]]⟩ rfl (by decide)

/-! ### Page/row counting claim -/

theorem filterMap_id_map_some (ts : List (List Row)) :
    (ts.map some).filterMap id = ts := by
  induction ts with
  | nil => rfl
  | cons t rest ih => simp [ih]

theorem all_rows_pages (hdr : Row) (t1 : List Row) (ts : List (List Row)) :
    all_rows (some (hdr :: t1) :: ts.map some) = hdr :: (t1 ++ ts.flatten) := by
  rw [all_rows_eq_specAggregate]
  unfold specAggregate
  rw [show ((some (hdr :: t1) :: ts.map some).filterMap id)
        = (hdr :: t1) :: ts from by simp [filterMap_id_map_some]]
  simp

theorem sum_map_length_const (R : Nat) (L : List (List Row)) (h : ∀ t ∈ L, t.length = R) :
    (L.map List.length).sum = L.length * R := by
  induction L with
  | nil => simp
  | cons t ts ih =>
    rw [List.map_cons, List.sum_cons, ih (fun u hu => h u (by simp [hu]))]
    rw [h t (by simp), List.length_cons, Nat.succ_mul]
    omega

/-- Claim C8: a document of 1 + |ts| pages whose tables form one
K-column logical table - the header plus R data rows on page 1 and R
data rows on each later page - yields an output with (1 + |ts|) * R data
records and K columns. -/
theorem n_pages_output_counts (hdr : Row) (t1 : List Row) (ts : List (List Row)) (K R : Nat)
    (hK : hdr.length = K) (ht1len : t1.length = R) (ht1 : ∀ r ∈ t1, r.length = K)
    (hts : ∀ t ∈ ts, t.length = R ∧ ∀ r ∈ t, r.length = K) :
    ∃ df : DataFrame,
      mkDataFrame (all_rows (some (hdr :: t1) :: ts.map some)) = Except.ok df ∧
      run (some (hdr :: t1) :: ts.map some) = Except.ok ⟨to_csv df, to_excel df⟩ ∧
      df.columns.length = K ∧
      df.data.length = (1 + ts.length) * R := by
  have hall : ((t1 ++ ts.flatten).all fun r => r.length = hdr.length) = true := by
    rw [List.all_eq_true]
    intro r hr
    rw [List.mem_append] at hr
    rcases hr with h | h
    · simp [decide_eq_true_eq, ht1 r h, hK]
    · rw [List.mem_flatten] at h
      obtain ⟨t, ht, hrt⟩ := h
      simp [decide_eq_true_eq, (hts t ht).2 r hrt, hK]
  have h1 : mkDataFrame (all_rows (some (hdr :: t1) :: ts.map some))
      = Except.ok ⟨hdr, t1 ++ ts.flatten⟩ := by
    rw [all_rows_pages, mkDataFrame_cons, if_pos hall]
  refine ⟨⟨hdr, t1 ++ ts.flatten⟩, h1, by rw [run_eq, h1], hK, ?_⟩
  rw [show (⟨hdr, t1 ++ ts.flatten⟩ : DataFrame).data = t1 ++ ts.flatten from rfl]
  rw [List.length_append, ht1len, List.length_flatten,
    sum_map_length_const R ts (fun t ht => (hts t ht).1)]
  rw [Nat.add_mul, Nat.one_mul]

theorem n_pages_output_counts_witness :
    ∃ df : DataFrame,
      mkDataFrame (all_rows (some (["h1", "h2"] :: [["a", "b"]]) :: [[["c", "d"]]].map some))
        = Except.ok df ∧
      run (some (["h1", "h2"] :: [["a", "b"]]) :: [[["c", "d"]]].map some)
        = Except.ok ⟨to_csv df, to_excel df⟩ ∧
      df.columns.length = 2 ∧
      df.data.length = (1 + ([[["c", "d"]]] : List (List Row)).length) * 1 :=
  n_pages_output_counts ["h1", "h2"] [["a", "b"]] [[["c", "d"]]] 2 1
    rfl rfl (by decide) (by decide)

end USAID
